import Mathlib

/-!
# DentalCad-Pro margin / solidification core: a shallow embedding

This file embeds the algorithmic core of the DentalCad-Pro repository
(margin-point management, Catmull-Rom curve fitting, neighbor smoothing,
`.PTS` interchange codec, detection-service fallback, and mesh shell
solidification) as executable Lean definitions, and proves the specified
properties about them.

Modelling conventions:
* JavaScript numbers are modelled as exact rationals (`ℚ`); `NaN` (the
  result of `parseFloat` on a malformed token) is modelled as `none` in
  `Option ℚ`.
* JavaScript strings are modelled as `List Char`; a file's text content is
  modelled as its list of lines (the source joins lines with a trailing
  newline character and splits on that same character).
* JavaScript objects `{id, x, y, z, confidence}` are modelled by structures;
  fields that a given code path does not set (e.g. `catmullRom` returns an
  object with only `x`, `y`, `z`) are modelled as `Option` fields set to
  `none`.
* Out-of-range array reads (which JavaScript answers with `undefined`) are
  modelled with `List.getD` and an explicit placeholder element; all proved
  statements only exercise in-range reads.
-/

namespace DentalCad

/-- A margin point as handled by `dentalWorkflow.js`: an object with
coordinates and, when created by detection / import / manual placement,
an `id` and a `confidence`.  `catmullRom` returns objects carrying only
`x`, `y`, `z`, hence `id` and `confidence` are optional. -/
structure JsPoint where
  id : Option ℕ
  x : ℚ
  y : ℚ
  z : ℚ
  confidence : Option ℚ
deriving DecidableEq

/-- Placeholder for a JavaScript `undefined` array read; never relevant to
the proved statements, which all stay in range. -/
def undefinedPoint : JsPoint := ⟨none, 0, 0, 0, none⟩

/-! ## Margin Point Store & Validation (`dentalWorkflow.js`) -/

/-- `validateMarginCompletion()` from `dentalWorkflow.js`:
`return this.marginData.points.length >= 10`. -/
def validateMarginCompletion (points : List JsPoint) : Bool :=
  10 ≤ points.length

/-- The status classification of `updateMarginStatus()` from
`dentalWorkflow.js`: the text written to the `#marginStatus` element,
as a function of the point count. -/
def marginStatusText (pointCount : ℕ) : String :=
  if pointCount = 0 then "Not Defined"
  else if pointCount < 10 then "Incomplete"
  else "Complete"

/-! ## Margin Curve Engine (`dentalWorkflow.js`) -/

/-- `catmullRom(p0, p1, p2, p3, t)` from `dentalWorkflow.js`: the cubic
Catmull-Rom basis applied independently per axis; the source returns a fresh
`{x, y, z}` object, so `id` and `confidence` are absent (`none`). -/
def catmullRom (p0 p1 p2 p3 : JsPoint) (t : ℚ) : JsPoint :=
  let t2 := t * t
  let t3 := t2 * t
  { id := none
    x := 0.5 * ((2 * p1.x) + (-p0.x + p2.x) * t +
          (2 * p0.x - 5 * p1.x + 4 * p2.x - p3.x) * t2 +
          (-p0.x + 3 * p1.x - 3 * p2.x + p3.x) * t3)
    y := 0.5 * ((2 * p1.y) + (-p0.y + p2.y) * t +
          (2 * p0.y - 5 * p1.y + 4 * p2.y - p3.y) * t2 +
          (-p0.y + 3 * p1.y - 3 * p2.y + p3.y) * t3)
    z := 0.5 * ((2 * p1.z) + (-p0.z + p2.z) * t +
          (2 * p0.z - 5 * p1.z + 4 * p2.z - p3.z) * t2 +
          (-p0.z + 3 * p1.z - 3 * p2.z + p3.z) * t3)
    confidence := none }

/-- `interpolateSpline(points, t)` from `dentalWorkflow.js`.  Index
arithmetic is done in `ℤ` (the JavaScript `%` operands are nonnegative on
every path reachable with `t ∈ [0,1]`, where `%` agrees with `Int.emod`). -/
def interpolateSpline (points : List JsPoint) (t : ℚ) : JsPoint :=
  let n := points.length
  if n < 4 then points.getD (⌊t * ((n : ℚ) - 1)⌋).toNat undefinedPoint
  else
    let segment := t * (n : ℚ)
    let index : ℤ := ⌊segment⌋
    let localT := segment - (index : ℚ)
    let p0 := points.getD ((index - 1 + n) % (n : ℤ)).toNat undefinedPoint
    let p1 := points.getD (index % (n : ℤ)).toNat undefinedPoint
    let p2 := points.getD ((index + 1) % (n : ℤ)).toNat undefinedPoint
    let p3 := points.getD ((index + 2) % (n : ℤ)).toNat undefinedPoint
    catmullRom p0 p1 p2 p3 localT

/-- `generateMarginCurve(points)` from `dentalWorkflow.js`: `null` (here
`none`) below 3 points, otherwise `segments = points.length * 4` and one
sample of `interpolateSpline` at `t = i / segments` for `i = 0 .. segments`. -/
def generateMarginCurve (points : List JsPoint) : Option (List JsPoint) :=
  if points.length < 3 then none
  else
    let segments := points.length * 4
    some ((List.range (segments + 1)).map
      (fun i => interpolateSpline points ((i : ℚ) / (segments : ℚ))))

/-- `smoothMarginPoints(points)` from `dentalWorkflow.js` with the
`smoothness` setting passed explicitly.  The source loops `i` over
`0 .. points.length - 1`, reads `prev`/`current`/`next` by index from the
*input* array (cyclically), and pushes `{...current, x, y, z}` onto a fresh
array. -/
def smoothMarginPoints (points : List JsPoint) (smoothness : ℚ) : List JsPoint :=
  (List.range points.length).map (fun (i : ℕ) =>
    let n := points.length
    let prev := points.getD (((i : ℤ) - 1 + n) % (n : ℤ)).toNat undefinedPoint
    let current := points.getD i undefinedPoint
    let next := points.getD ((i + 1) % n) undefinedPoint
    { current with
      x := (prev.x + current.x * smoothness + next.x) / (smoothness + 2)
      y := (prev.y + current.y * smoothness + next.y) / (smoothness + 2)
      z := (prev.z + current.z * smoothness + next.z) / (smoothness + 2) })

end DentalCad

namespace DentalCad

/-- C7: below 4 points, `interpolateSpline` is a direct nearest-index lookup:
for `t ∈ [0,1]` it returns exactly the element at index
`⌊t * (n - 1)⌋`, which is always in range. -/
theorem claim_C7_degenerate_lookup (points : List JsPoint) (t : ℚ)
    (h4 : points.length < 4) (h1 : 1 ≤ points.length)
    (ht0 : 0 ≤ t) (ht1 : t ≤ 1) :
    ∃ h : (⌊t * ((points.length : ℚ) - 1)⌋).toNat < points.length,
      interpolateSpline points t =
        points.get ⟨(⌊t * ((points.length : ℚ) - 1)⌋).toNat, h⟩ := by
  have hn : (1 : ℚ) ≤ (points.length : ℚ) := by exact_mod_cast h1
  have hmul : t * ((points.length : ℚ) - 1) ≤ (points.length : ℚ) - 1 := by
    nlinarith
  have hfl : ⌊t * ((points.length : ℚ) - 1)⌋ ≤ (points.length : ℤ) - 1 := by
    have h2 : ((points.length : ℤ) : ℚ) - 1 = (points.length : ℚ) - 1 := by
      push_cast
      ring
    have := Int.floor_le_floor (α := ℚ) hmul
    rw [← h2] at this
    simpa using this
  have hlt : (⌊t * ((points.length : ℚ) - 1)⌋).toNat < points.length := by
    omega
  refine ⟨hlt, ?_⟩
  simp only [interpolateSpline, if_pos h4]
  exact List.getD_eq_getElem points undefinedPoint hlt

/-- C7 witness: a 2-point list at `t = 1/2` yields the point at index
`⌊(1/2) * 1⌋ = 0`. -/
theorem claim_C7_degenerate_lookup_witness :
    ([(⟨some 1, 5, 6, 7, some 1⟩ : JsPoint), ⟨some 2, 8, 9, 10, some 1⟩] : List JsPoint).length < 4 ∧
    1 ≤ ([(⟨some 1, 5, 6, 7, some 1⟩ : JsPoint), ⟨some 2, 8, 9, 10, some 1⟩] : List JsPoint).length ∧
    (0 : ℚ) ≤ 1/2 ∧ (1/2 : ℚ) ≤ 1 ∧
    ∃ h : (⌊(1/2 : ℚ) * ((([(⟨some 1, 5, 6, 7, some 1⟩ : JsPoint), ⟨some 2, 8, 9, 10, some 1⟩] : List JsPoint).length : ℚ) - 1)⌋).toNat <
        ([(⟨some 1, 5, 6, 7, some 1⟩ : JsPoint), ⟨some 2, 8, 9, 10, some 1⟩] : List JsPoint).length,
      interpolateSpline [(⟨some 1, 5, 6, 7, some 1⟩ : JsPoint), ⟨some 2, 8, 9, 10, some 1⟩] (1/2) =
        ([(⟨some 1, 5, 6, 7, some 1⟩ : JsPoint), ⟨some 2, 8, 9, 10, some 1⟩] : List JsPoint).get
          ⟨(⌊(1/2 : ℚ) * ((([(⟨some 1, 5, 6, 7, some 1⟩ : JsPoint), ⟨some 2, 8, 9, 10, some 1⟩] : List JsPoint).length : ℚ) - 1)⌋).toNat, h⟩ := by
  refine ⟨by decide, by decide, by norm_num, by norm_num, ?_⟩
  exact claim_C7_degenerate_lookup _ _ (by decide) (by decide) (by norm_num) (by norm_num)

/-- C4: one synchronous cyclic neighbor-smoothing pass.  The output has the
same length; entry `i` is the input entry `i` with only its position replaced
by `(prev + s*current + next) / (s + 2)` per coordinate, where `prev` and
`next` are the cyclic neighbors read from the *original* list; `id` and
`confidence` are preserved; and an empty or singleton input is returned
unchanged. -/
theorem claim_C4_neighbor_smoothing (points : List JsPoint) (sN : ℕ) (hs : 1 ≤ sN) :
    ((smoothMarginPoints points (sN : ℚ)).length = points.length) ∧
    (∀ i, i < points.length →
      (smoothMarginPoints points (sN : ℚ)).getD i undefinedPoint =
        (let n := points.length
         let prev := points.getD (((i : ℤ) - 1 + n) % (n : ℤ)).toNat undefinedPoint
         let current := points.getD i undefinedPoint
         let next := points.getD ((i + 1) % n) undefinedPoint
         { current with
           x := (prev.x + current.x * (sN : ℚ) + next.x) / ((sN : ℚ) + 2)
           y := (prev.y + current.y * (sN : ℚ) + next.y) / ((sN : ℚ) + 2)
           z := (prev.z + current.z * (sN : ℚ) + next.z) / ((sN : ℚ) + 2) }) ∧
      ((smoothMarginPoints points (sN : ℚ)).getD i undefinedPoint).id =
        (points.getD i undefinedPoint).id ∧
      ((smoothMarginPoints points (sN : ℚ)).getD i undefinedPoint).confidence =
        (points.getD i undefinedPoint).confidence) ∧
    (points = [] → smoothMarginPoints points (sN : ℚ) = points) ∧
    (∀ p : JsPoint, points = [p] → smoothMarginPoints points (sN : ℚ) = points) := by
  have hlen : (smoothMarginPoints points (sN : ℚ)).length = points.length := by
    simp [smoothMarginPoints]
  refine ⟨hlen, ?_, ?_, ?_⟩
  · intro i hi
    have hi2 : i < (smoothMarginPoints points (sN : ℚ)).length := by omega
    have hget : (smoothMarginPoints points (sN : ℚ)).getD i undefinedPoint =
        (let n := points.length
         let prev := points.getD (((i : ℤ) - 1 + n) % (n : ℤ)).toNat undefinedPoint
         let current := points.getD i undefinedPoint
         let next := points.getD ((i + 1) % n) undefinedPoint
         { current with
           x := (prev.x + current.x * (sN : ℚ) + next.x) / ((sN : ℚ) + 2)
           y := (prev.y + current.y * (sN : ℚ) + next.y) / ((sN : ℚ) + 2)
           z := (prev.z + current.z * (sN : ℚ) + next.z) / ((sN : ℚ) + 2) }) := by
      rw [List.getD_eq_getElem _ _ hi2]
      simp [smoothMarginPoints]
    exact ⟨hget, by rw [hget], by rw [hget]⟩
  · intro h
    subst h
    rfl
  · intro p h
    subst h
    have hs2 : (sN : ℚ) + 2 ≠ 0 := by positivity
    obtain ⟨pid, px, py, pz, pc⟩ := p
    have hr : List.range 1 = [0] := rfl
    have hidx : ((((0:ℕ) : ℤ) - 1 + ((1:ℕ) : ℤ)) % ((1:ℕ) : ℤ)).toNat = 0 := by decide
    have hidx2 : ((0:ℕ) + 1) % (1:ℕ) = 0 := by decide
    simp only [smoothMarginPoints, List.length_cons, List.length_nil, Nat.zero_add, hr,
      List.map_cons, List.map_nil, hidx, hidx2, List.getD_cons_zero, List.cons.injEq,
      and_true, JsPoint.mk.injEq, true_and]
    refine ⟨?_, ?_, ?_⟩ <;> field_simp <;> ring

/-- C4 witness: the smoothing theorem applied to a concrete 1-point list and
a concrete 3-point list with weight 5. -/
theorem claim_C4_neighbor_smoothing_witness :
    (1 ≤ 5 ∧
      smoothMarginPoints [(⟨some 7, 1, 2, 3, some 1⟩ : JsPoint)] ((5 : ℕ) : ℚ) =
        [(⟨some 7, 1, 2, 3, some 1⟩ : JsPoint)]) ∧
    (smoothMarginPoints
        [(⟨some 1, 0, 0, 0, some 1⟩ : JsPoint), ⟨some 2, 7, 0, 0, some 1⟩, ⟨some 3, 0, 7, 0, some 1⟩]
        ((5 : ℕ) : ℚ)).length = 3 := by
  constructor
  · exact ⟨by norm_num,
      (claim_C4_neighbor_smoothing [(⟨some 7, 1, 2, 3, some 1⟩ : JsPoint)] 5 (by norm_num)).2.2.2
        ⟨some 7, 1, 2, 3, some 1⟩ rfl⟩
  · exact (claim_C4_neighbor_smoothing
      [(⟨some 1, 0, 0, 0, some 1⟩ : JsPoint), ⟨some 2, 7, 0, 0, some 1⟩, ⟨some 3, 0, 7, 0, some 1⟩]
      5 (by norm_num)).1

/-- C5 sample: a list of `n` identical margin points. -/
def samplePoints (n : ℕ) : List JsPoint :=
  List.replicate n ⟨some 1, 0, 0, 0, some 1⟩

/-- C2: for `n ≥ 4` and `t ∈ [0,1]`, the margin-curve interpolation computes
`segment = t*n`, `index = ⌊segment⌋`, `localT = segment - index`, selects the
four cyclic control points `p0 = points[(index-1+n)%n]`, `p1 = points[index%n]`,
`p2 = points[(index+1)%n]`, `p3 = points[(index+2)%n]` (all indices in range),
applies the standard cubic Catmull-Rom polynomial per axis, and the curve is
sampled at `segments = n*4` steps over `t ∈ [0,1]`. -/
theorem claim_C2_catmull_rom_interpolation (points : List JsPoint) (t : ℚ)
    (h4 : 4 ≤ points.length) (ht0 : 0 ≤ t) (ht1 : t ≤ 1) :
    interpolateSpline points t =
      catmullRom
        (points.getD ((⌊t * (points.length : ℚ)⌋ - 1 + points.length) % (points.length : ℤ)).toNat undefinedPoint)
        (points.getD (⌊t * (points.length : ℚ)⌋ % (points.length : ℤ)).toNat undefinedPoint)
        (points.getD ((⌊t * (points.length : ℚ)⌋ + 1) % (points.length : ℤ)).toNat undefinedPoint)
        (points.getD ((⌊t * (points.length : ℚ)⌋ + 2) % (points.length : ℤ)).toNat undefinedPoint)
        (t * (points.length : ℚ) - (⌊t * (points.length : ℚ)⌋ : ℚ)) ∧
    (0 ≤ ⌊t * (points.length : ℚ)⌋ ∧ ⌊t * (points.length : ℚ)⌋ ≤ (points.length : ℤ)) ∧
    ((⌊t * (points.length : ℚ)⌋ - 1 + points.length) % (points.length : ℤ)).toNat < points.length ∧
    (⌊t * (points.length : ℚ)⌋ % (points.length : ℤ)).toNat < points.length ∧
    ((⌊t * (points.length : ℚ)⌋ + 1) % (points.length : ℤ)).toNat < points.length ∧
    ((⌊t * (points.length : ℚ)⌋ + 2) % (points.length : ℤ)).toNat < points.length ∧
    (∀ q0 q1 q2 q3 : JsPoint, ∀ u : ℚ,
      catmullRom q0 q1 q2 q3 u =
        { id := none
          x := 0.5 * ((2 * q1.x) + (-q0.x + q2.x) * u +
                (2 * q0.x - 5 * q1.x + 4 * q2.x - q3.x) * u ^ 2 +
                (-q0.x + 3 * q1.x - 3 * q2.x + q3.x) * u ^ 3)
          y := 0.5 * ((2 * q1.y) + (-q0.y + q2.y) * u +
                (2 * q0.y - 5 * q1.y + 4 * q2.y - q3.y) * u ^ 2 +
                (-q0.y + 3 * q1.y - 3 * q2.y + q3.y) * u ^ 3)
          z := 0.5 * ((2 * q1.z) + (-q0.z + q2.z) * u +
                (2 * q0.z - 5 * q1.z + 4 * q2.z - q3.z) * u ^ 2 +
                (-q0.z + 3 * q1.z - 3 * q2.z + q3.z) * u ^ 3)
          confidence := none }) ∧
    generateMarginCurve points =
      some ((List.range (points.length * 4 + 1)).map
        (fun i => interpolateSpline points ((i : ℚ) / ((points.length * 4 : ℕ) : ℚ)))) := by
  have hn4 : ¬ points.length < 4 := by omega
  have hnpos : (0 : ℤ) < (points.length : ℤ) := by exact_mod_cast Nat.lt_of_lt_of_le (by norm_num) h4
  have hflnn : 0 ≤ ⌊t * (points.length : ℚ)⌋ := by
    apply Int.floor_nonneg.mpr
    positivity
  have hflub : ⌊t * (points.length : ℚ)⌋ ≤ (points.length : ℤ) := by
    have hmul : t * (points.length : ℚ) ≤ (points.length : ℚ) := by
      nlinarith [Nat.cast_nonneg (α := ℚ) points.length]
    calc ⌊t * (points.length : ℚ)⌋ ≤ ⌊(points.length : ℚ)⌋ := Int.floor_le_floor hmul
      _ = (points.length : ℤ) := Int.floor_natCast points.length
  have hmod : ∀ a : ℤ, (a % (points.length : ℤ)).toNat < points.length := by
    intro a
    have h1 : 0 ≤ a % (points.length : ℤ) := Int.emod_nonneg a (by omega)
    have h2 : a % (points.length : ℤ) < (points.length : ℤ) := Int.emod_lt_of_pos a hnpos
    omega
  refine ⟨?_, ⟨hflnn, hflub⟩, hmod _, hmod _, hmod _, hmod _, ?_, ?_⟩
  · simp only [interpolateSpline]
    rw [if_neg hn4]
  · intro q0 q1 q2 q3 u
    simp only [catmullRom, JsPoint.mk.injEq, true_and, and_true]
    refine ⟨by ring, by ring, by ring⟩
  · simp only [generateMarginCurve]
    rw [if_neg (by omega : ¬ points.length < 3)]

/-- C2 witness: the interpolation theorem applied to a concrete 4-point list
at `t = 1/3`. -/
theorem claim_C2_catmull_rom_interpolation_witness :
    4 ≤ (samplePoints 4).length ∧ (0 : ℚ) ≤ 1/3 ∧ (1/3 : ℚ) ≤ 1 ∧
    generateMarginCurve (samplePoints 4) =
      some ((List.range ((samplePoints 4).length * 4 + 1)).map
        (fun i => interpolateSpline (samplePoints 4) ((i : ℚ) / (((samplePoints 4).length * 4 : ℕ) : ℚ)))) := by
  refine ⟨by decide, by norm_num, by norm_num, ?_⟩
  exact (claim_C2_catmull_rom_interpolation (samplePoints 4) (1/3)
    (by decide) (by norm_num) (by norm_num)).2.2.2.2.2.2.2

/-- C5: `validateMarginCompletion` is true iff there are at least 10 points
(false at 9, true at 10), and the derived status text is "Not Defined" at
count 0, "Incomplete" for counts strictly between 0 and 10, and "Complete"
from 10 points on. -/
theorem claim_C5_margin_completion (points : List JsPoint) :
    (validateMarginCompletion points = true ↔ 10 ≤ points.length) ∧
    (points.length = 9 → validateMarginCompletion points = false) ∧
    (points.length = 10 → validateMarginCompletion points = true) ∧
    (points.length = 0 → marginStatusText points.length = "Not Defined") ∧
    (0 < points.length → points.length < 10 →
      marginStatusText points.length = "Incomplete") ∧
    (10 ≤ points.length → marginStatusText points.length = "Complete") := by
  refine ⟨?_, ?_, ?_, ?_, ?_, ?_⟩
  · simp [validateMarginCompletion]
  · intro h
    simp [validateMarginCompletion, h]
  · intro h
    simp [validateMarginCompletion, h]
  · intro h
    simp [marginStatusText, h]
  · intro h1 h2
    have h0 : points.length ≠ 0 := Nat.pos_iff_ne_zero.mp h1
    simp [marginStatusText, h0, h2]
  · intro h
    have h0 : points.length ≠ 0 := by omega
    have h2 : ¬ points.length < 10 := by omega
    simp [marginStatusText, h0, h2]

/-- C5 witness: the completion check and status classification evaluated at
concrete point sets of sizes 9 and 10. -/
theorem claim_C5_margin_completion_witness :
    ((samplePoints 9).length = 9 ∧ validateMarginCompletion (samplePoints 9) = false) ∧
    ((samplePoints 10).length = 10 ∧ validateMarginCompletion (samplePoints 10) = true) ∧
    (0 < (samplePoints 9).length ∧ (samplePoints 9).length < 10 ∧
      marginStatusText (samplePoints 9).length = "Incomplete") := by
  refine ⟨⟨by decide, ?_⟩, ⟨by decide, ?_⟩, by decide, by decide, ?_⟩
  · exact (claim_C5_margin_completion (samplePoints 9)).2.1 (by decide)
  · exact (claim_C5_margin_completion (samplePoints 10)).2.2.1 (by decide)
  · exact (claim_C5_margin_completion (samplePoints 9)).2.2.2.2.1 (by decide) (by decide)

/-! ## Mesh Shell Solidifier (`modelingTools.js`) -/

/-- The inner-surface generation loop of `solidifyModel` (`modelingTools.js`):
for every entry of the flat (non-indexed) position array,
`inner[i] = positions[i] + (-normals[i]) * extrusionDepth`.  The source walks
the arrays in strides of three, writing each of the three components of a
vertex with this same elementwise formula over the two parallel flat arrays,
i.e. a `zipWith`. -/
def innerPositionsOf (positions normals : List ℚ) (extrusionDepth : ℚ) : List ℚ :=
  List.zipWith (fun p nrm => p + (-nrm) * extrusionDepth) positions normals

/-- The vertex triples of a flat position array (`findBoundaryVertices`
builds the same triple list before counting neighbors). -/
def toVertices : List ℚ → List (ℚ × ℚ × ℚ)
  | x :: y :: z :: rest => (x, y, z) :: toVertices rest
  | _ => []

/-- Squared Euclidean distance between two vertices.  The source compares
`Math.sqrt(distSq) < tolerance`; with both sides nonnegative this is
`distSq < tolerance^2`, which keeps the computation in `ℚ`. -/
def distSq (v w : ℚ × ℚ × ℚ) : ℚ :=
  (v.1 - w.1) ^ 2 + (v.2.1 - w.2.1) ^ 2 + (v.2.2 - w.2.2) ^ 2

/-- `findBoundaryVertices(positions, tolerance)` from `modelingTools.js`:
every vertex whose count of *other* vertices within Euclidean distance
`tolerance` is below 6 is a boundary candidate; candidates are listed in
vertex order. -/
def findBoundaryVertices (positions : List ℚ) (tolerance : ℚ) : List ℕ :=
  let vertices := toVertices positions
  (List.range vertices.length).filter (fun i =>
    let v := vertices.getD i (0, 0, 0)
    decide (((List.range vertices.length).countP (fun j =>
      decide (j ≠ i) && decide (distSq v (vertices.getD j (0, 0, 0)) < tolerance ^ 2))) < 6))

/-- One wall segment of `createConnectingWalls` (`modelingTools.js`): the 18
coordinates pushed for the boundary pair `(idx1, idx2)` — the two triangles
`outer1, outer2, inner1` and `inner1, outer2, inner2`. -/
def wallSegment (outerPositions innerPositions : List ℚ) (idx1 idx2 : ℕ) : List ℚ :=
  [outerPositions.getD (idx1 * 3) 0, outerPositions.getD (idx1 * 3 + 1) 0, outerPositions.getD (idx1 * 3 + 2) 0,
   outerPositions.getD (idx2 * 3) 0, outerPositions.getD (idx2 * 3 + 1) 0, outerPositions.getD (idx2 * 3 + 2) 0,
   innerPositions.getD (idx1 * 3) 0, innerPositions.getD (idx1 * 3 + 1) 0, innerPositions.getD (idx1 * 3 + 2) 0,
   innerPositions.getD (idx1 * 3) 0, innerPositions.getD (idx1 * 3 + 1) 0, innerPositions.getD (idx1 * 3 + 2) 0,
   outerPositions.getD (idx2 * 3) 0, outerPositions.getD (idx2 * 3 + 1) 0, outerPositions.getD (idx2 * 3 + 2) 0,
   innerPositions.getD (idx2 * 3) 0, innerPositions.getD (idx2 * 3 + 1) 0, innerPositions.getD (idx2 * 3 + 2) 0]

/-- `createConnectingWalls(outerPositions, innerPositions)` from
`modelingTools.js`: with boundary candidates `bv`, the loop runs
`i = 0 .. bv.length - 2` and pushes one `wallSegment` per consecutive pair
`(bv[i], bv[i+1])` (tolerance is the fixed `0.1`). -/
def createConnectingWalls (outerPositions innerPositions : List ℚ) : List ℚ :=
  let boundaryVertices := findBoundaryVertices outerPositions (1/10)
  ((List.range (boundaryVertices.length - 1)).map (fun i =>
    wallSegment outerPositions innerPositions
      (boundaryVertices.getD i 0) (boundaryVertices.getD (i + 1) 0))).join

/-- The inner-surface winding reversal of `solidifyModel`: per original
triangle (blocks of 9 floats) the vertex order `(a, b, c)` becomes
`(c, b, a)`. -/
def reverseWindingTriangles : List ℚ → List ℚ
  | a1 :: a2 :: a3 :: b1 :: b2 :: b3 :: c1 :: c2 :: c3 :: rest =>
      c1 :: c2 :: c3 :: b1 :: b2 :: b3 :: a1 :: a2 :: a3 :: reverseWindingTriangles rest
  | _ => []

/-- A THREE.js `BufferGeometry` as used by `modelingTools.js`: a flat
position array and an optional normal attribute. -/
structure BufferGeometry where
  positions : List ℚ
  normals : Option (List ℚ)
deriving DecidableEq

/-- A THREE.js model object: `model.geometry` may be absent. -/
structure ThreeModel where
  geometry : Option BufferGeometry
deriving DecidableEq

/-- `solidifyModel(model, extrusionDepth)` from `modelingTools.js`.
`computeVertexNormals` stands for THREE's normal computation (library code,
not part of this repository); returning `none` models the exceptional path
that the source catches, after which `solidifyModel` returns `null`.  A model
without geometry is rejected up front. -/
def solidifyModel (computeVertexNormals : List ℚ → Option (List ℚ))
    (model : ThreeModel) (extrusionDepth : ℚ) : Option BufferGeometry :=
  match model.geometry with
  | none => none
  | some originalGeometry =>
    let normalsOpt :=
      match originalGeometry.normals with
      | some ns => some ns
      | none => computeVertexNormals originalGeometry.positions
    match normalsOpt with
    | none => none
    | some computedNormals =>
      let positions := originalGeometry.positions
      let innerPositions := innerPositionsOf positions computedNormals extrusionDepth
      let wallVertices := createConnectingWalls positions innerPositions
      let solidVertices := positions ++ reverseWindingTriangles innerPositions ++ wallVertices
      match computeVertexNormals solidVertices with
      | none => none
      | some solidNormals => some { positions := solidVertices, normals := some solidNormals }

/-- `applySolidification(model, extrusionDepth)` from `modelingTools.js`:
replace the model's geometry only when `solidifyModel` succeeded; otherwise
report `false` and leave the model as it was. -/
def applySolidification (computeVertexNormals : List ℚ → Option (List ℚ))
    (model : ThreeModel) (extrusionDepth : ℚ) : Bool × ThreeModel :=
  match solidifyModel computeVertexNormals model extrusionDepth with
  | some solidGeometry => (true, { geometry := some solidGeometry })
  | none => (false, model)

/-- C1: inner-surface generation computes `inner(v) = v + (-n) * d` for every
flat vertex component, and for a mesh whose per-vertex normals are all
`(0,0,1)` (component `i` of the flat normal array is `1` at `i % 3 = 2` and
`0` otherwise), every inner vertex equals the outer vertex minus `(0,0,d)`. -/
theorem claim_C1_inner_surface (positions normals : List ℚ) (d : ℚ)
    (hlen : normals.length = positions.length) :
    (innerPositionsOf positions normals d).length = positions.length ∧
    (∀ i (h3 : i < (innerPositionsOf positions normals d).length)
        (h1 : i < positions.length) (h2 : i < normals.length),
      (innerPositionsOf positions normals d).get ⟨i, h3⟩ =
        positions.get ⟨i, h1⟩ + (-(normals.get ⟨i, h2⟩)) * d) ∧
    ((∀ i (h2 : i < normals.length),
        normals.get ⟨i, h2⟩ = if i % 3 = 2 then 1 else 0) →
      ∀ i (h3 : i < (innerPositionsOf positions normals d).length)
          (h1 : i < positions.length),
        (innerPositionsOf positions normals d).get ⟨i, h3⟩ =
          positions.get ⟨i, h1⟩ - (if i % 3 = 2 then d else 0)) := by
  have hl : (innerPositionsOf positions normals d).length = positions.length := by
    simp [innerPositionsOf, hlen]
  have hget : ∀ i (h3 : i < (innerPositionsOf positions normals d).length)
      (h1 : i < positions.length) (h2 : i < normals.length),
      (innerPositionsOf positions normals d).get ⟨i, h3⟩ =
        positions.get ⟨i, h1⟩ + (-(normals.get ⟨i, h2⟩)) * d := by
    intro i h3 h1 h2
    simp [innerPositionsOf]
  refine ⟨hl, hget, ?_⟩
  intro hunit i h3 h1
  have h2 : i < normals.length := by omega
  rw [hget i h3 h1 h2, hunit i h2]
  by_cases hc : i % 3 = 2
  · simp only [hc, if_pos]
    ring
  · simp [hc]

/-- C1 witness: one triangle with all vertex normals `(0,0,1)` and depth 2:
the inner z-components drop by 2 and x/y are unchanged. -/
theorem claim_C1_inner_surface_witness :
    ([0, 0, 1, 0, 0, 1, 0, 0, 1] : List ℚ).length = ([5, 6, 7, 8, 9, 10, 11, 12, 13] : List ℚ).length ∧
    (innerPositionsOf [5, 6, 7, 8, 9, 10, 11, 12, 13] [0, 0, 1, 0, 0, 1, 0, 0, 1] 2).length =
      ([5, 6, 7, 8, 9, 10, 11, 12, 13] : List ℚ).length := by
  refine ⟨by decide, ?_⟩
  exact (claim_C1_inner_surface [5, 6, 7, 8, 9, 10, 11, 12, 13]
    [0, 0, 1, 0, 0, 1, 0, 0, 1] 2 (by decide)).1

/-- C10: with `B ≥ 1` boundary candidates, wall synthesis emits exactly
`2*(B-1)` wall triangles (`18*(B-1)` coordinates; every segment contributes
18), one segment per consecutive pair `(i, i+1)` for `i = 0 .. B-2` only; the
pair `(B-1, 0)` closing the loop is never among the stitched pairs, so the
wall strip stays open. -/
theorem claim_C10_open_wall_strip (outerPositions innerPositions : List ℚ)
    (hB : 1 ≤ (findBoundaryVertices outerPositions (1/10)).length) :
    (createConnectingWalls outerPositions innerPositions).length =
      18 * ((findBoundaryVertices outerPositions (1/10)).length - 1) ∧
    createConnectingWalls outerPositions innerPositions =
      (((List.range ((findBoundaryVertices outerPositions (1/10)).length - 1)).map
        (fun i => (i, i + 1))).map (fun pr =>
          wallSegment outerPositions innerPositions
            ((findBoundaryVertices outerPositions (1/10)).getD pr.1 0)
            ((findBoundaryVertices outerPositions (1/10)).getD pr.2 0))).join ∧
    (∀ o iP a b, (wallSegment o iP a b).length = 18) ∧
    (∀ pr ∈ (List.range ((findBoundaryVertices outerPositions (1/10)).length - 1)).map
        (fun i => (i, i + 1)),
      pr.2 = pr.1 + 1 ∧ pr.2 ≤ (findBoundaryVertices outerPositions (1/10)).length - 1) ∧
    ((findBoundaryVertices outerPositions (1/10)).length - 1, 0) ∉
      (List.range ((findBoundaryVertices outerPositions (1/10)).length - 1)).map
        (fun i => (i, i + 1)) := by
  refine ⟨?_, ?_, fun o iP a b => rfl, ?_, ?_⟩
  · simp only [createConnectingWalls, List.length_join, List.map_map]
    have hconst : ((List.range ((findBoundaryVertices outerPositions (1/10)).length - 1)).map
        (List.length ∘ fun i => wallSegment outerPositions innerPositions
          ((findBoundaryVertices outerPositions (1/10)).getD i 0)
          ((findBoundaryVertices outerPositions (1/10)).getD (i + 1) 0))) =
        List.replicate ((findBoundaryVertices outerPositions (1/10)).length - 1) 18 := by
      rw [List.eq_replicate_iff]
      refine ⟨by simp, ?_⟩
      intro x hx
      simp only [List.mem_map] at hx
      obtain ⟨i, _, hi⟩ := hx
      subst hi
      rfl
    rw [hconst, List.sum_replicate, smul_eq_mul, Nat.mul_comm]
  · simp only [createConnectingWalls, List.map_map]
    rfl
  · intro pr hpr
    simp only [List.mem_map, List.mem_range] at hpr
    obtain ⟨i, hi, hpr⟩ := hpr
    subst hpr
    exact ⟨rfl, by omega⟩
  · intro hmem
    simp only [List.mem_map, List.mem_range] at hmem
    obtain ⟨i, hi, heq⟩ := hmem
    have h1 := congrArg Prod.snd heq
    simp at h1

/-- C10 witness: a triangle whose three vertices are mutually farther apart
than the 0.1 tolerance — all three vertices are boundary candidates and the
wall carries `18 * (3-1) = 36` coordinates, i.e. 4 wall triangles. -/
theorem claim_C10_open_wall_strip_witness :
    1 ≤ (findBoundaryVertices [0, 0, 0, 1, 0, 0, 0, 1, 0] (1/10)).length ∧
    (createConnectingWalls [0, 0, 0, 1, 0, 0, 0, 1, 0] [0, 0, -2, 1, 0, -2, 0, 1, -2]).length =
      18 * ((findBoundaryVertices [0, 0, 0, 1, 0, 0, 0, 1, 0] (1/10)).length - 1) := by
  have hbv : findBoundaryVertices [0, 0, 0, 1, 0, 0, 0, 1, 0] (1/10) = [0, 1, 2] := by
    norm_num [findBoundaryVertices, toVertices, distSq, List.range_succ, List.filter,
      List.countP, List.countP.go]
  have h1 : 1 ≤ (findBoundaryVertices [0, 0, 0, 1, 0, 0, 0, 1, 0] (1/10)).length := by
    rw [hbv]
    norm_num
  exact ⟨h1, (claim_C10_open_wall_strip [0, 0, 0, 1, 0, 0, 0, 1, 0]
    [0, 0, -2, 1, 0, -2, 0, 1, -2] h1).1⟩

/-- C8: on the failing paths — the model has no geometry, or the missing
normals cannot be computed — `solidifyModel` reports failure (`none` /
`null`), and `applySolidification` then returns `false` with the caller's
model, geometry included, completely unchanged. -/
theorem claim_C8_failure_leaves_geometry_untouched
    (computeVertexNormals : List ℚ → Option (List ℚ)) (model : ThreeModel) (d : ℚ) :
    (model.geometry = none → solidifyModel computeVertexNormals model d = none) ∧
    (∀ g, model.geometry = some g → g.normals = none →
      computeVertexNormals g.positions = none →
      solidifyModel computeVertexNormals model d = none) ∧
    (solidifyModel computeVertexNormals model d = none →
      applySolidification computeVertexNormals model d = (false, model)) := by
  refine ⟨?_, ?_, ?_⟩
  · intro h
    simp [solidifyModel, h]
  · intro g hg hn hc
    simp [solidifyModel, hg, hn, hc]
  · intro h
    simp [applySolidification, h]

/-- C8 witness: a model without geometry, and a model whose geometry lacks
normals while normal computation fails: both fail and are left unchanged. -/
theorem claim_C8_failure_leaves_geometry_untouched_witness :
    ((⟨none⟩ : ThreeModel).geometry = none ∧
      applySolidification (fun _ => none) (⟨none⟩ : ThreeModel) 2 = (false, ⟨none⟩)) ∧
    ((⟨some ⟨[1, 2, 3], none⟩⟩ : ThreeModel).geometry = some ⟨[1, 2, 3], none⟩ ∧
      (⟨[1, 2, 3], none⟩ : BufferGeometry).normals = none ∧
      (fun (_ : List ℚ) => (none : Option (List ℚ))) [1, 2, 3] = none ∧
      applySolidification (fun _ => none) (⟨some ⟨[1, 2, 3], none⟩⟩ : ThreeModel) 2 =
        (false, ⟨some ⟨[1, 2, 3], none⟩⟩)) := by
  constructor
  · refine ⟨rfl, ?_⟩
    have h := claim_C8_failure_leaves_geometry_untouched (fun _ => none) (⟨none⟩ : ThreeModel) 2
    exact h.2.2 (h.1 rfl)
  · refine ⟨rfl, rfl, rfl, ?_⟩
    have h := claim_C8_failure_leaves_geometry_untouched (fun _ => none)
      (⟨some ⟨[1, 2, 3], none⟩⟩ : ThreeModel) 2
    exact h.2.2 (h.2.1 ⟨[1, 2, 3], none⟩ rfl rfl rfl)

/-! ## Detection Service Adapter (`ModelingBackendService`) -/

/-- The options object passed to margin detection; `point_density` mirrors
`options.point_density` (`none` models an absent property, and the source's
`options.point_density || 50` also maps a present `0` to the default 50). -/
structure DetectionOptions where
  point_density : Option ℕ
deriving DecidableEq

/-- The result shape of the margin-detection adapter. -/
structure DetectResult where
  success : Bool
  points : List JsPoint
  count : ℕ
  source : String
deriving DecidableEq

/-- `fallbackMarginDetection(geometry, options)` from the backend-service
module: `density` points on a circle of radius 3 around `(0, 0, -1)`, each
jittered by `(Math.random() - 0.5) * 0.2` in x and y and
`(Math.random() - 0.5) * 0.1` in z, with confidence
`0.7 + Math.random() * 0.2`.  `rnd k` is the value of the `k`-th
`Math.random()` call (four calls per point); `cosF`, `sinF` and `piQ` stand
for `Math.cos`, `Math.sin` and `Math.PI`, which the floating-point source
evaluates approximately. -/
def fallbackMarginDetection (rnd : ℕ → ℚ) (cosF sinF : ℚ → ℚ) (piQ : ℚ)
    (options : DetectionOptions) : DetectResult :=
  let density := match options.point_density with
    | none => 50
    | some 0 => 50
    | some k => k
  let radius : ℚ := 3
  let centerX : ℚ := 0
  let centerY : ℚ := 0
  let centerZ : ℚ := -1
  let points := (List.range density).map (fun (i : ℕ) =>
    let angle := ((i : ℚ) / (density : ℚ)) * piQ * 2
    ({ id := some (i + 1)
       x := centerX + cosF angle * radius + (rnd (4 * i) - 0.5) * 0.2
       y := centerY + sinF angle * radius + (rnd (4 * i + 1) - 0.5) * 0.2
       z := centerZ + (rnd (4 * i + 2) - 0.5) * 0.1
       confidence := some (0.7 + rnd (4 * i + 3) * 0.2) } : JsPoint))
  { success := true
    points := points
    count := points.length
    source := "fallback" }

/-- `detectMarginEdge(geometry, options)` from the backend-service module:
when the backend is unavailable, the fetch fails (`none`), or the response
reports `success: false`, the call falls back to `fallbackMarginDetection`;
a successful backend response is returned as-is. -/
def detectMarginEdge (backendAvailable : Bool) (backendResponse : Option DetectResult)
    (rnd : ℕ → ℚ) (cosF sinF : ℚ → ℚ) (piQ : ℚ) (options : DetectionOptions) : DetectResult :=
  if backendAvailable = false then fallbackMarginDetection rnd cosF sinF piQ options
  else
    match backendResponse with
    | none => fallbackMarginDetection rnd cosF sinF piQ options
    | some result =>
        if result.success then result
        else fallbackMarginDetection rnd cosF sinF piQ options

/-- C6: whenever the backend is unavailable or its call fails, detection
still returns a successful result from the fallback generator: source
`"fallback"`, point count equal to the `pointDensity` setting, every point on
the radius-3 circle up to jitter of magnitude at most 0.2 in x and y and at
most 0.1 in z, and every confidence within `[0.7, 0.9]`. -/
theorem claim_C6_fallback_detection (backendAvailable : Bool)
    (backendResponse : Option DetectResult) (rnd : ℕ → ℚ) (cosF sinF : ℚ → ℚ)
    (piQ : ℚ) (options : DetectionOptions) (dens : ℕ)
    (hfail : backendAvailable = false ∨ backendResponse = none)
    (hdens : options.point_density = some dens) (hpos : 0 < dens)
    (hrnd : ∀ k, 0 ≤ rnd k ∧ rnd k < 1) :
    (detectMarginEdge backendAvailable backendResponse rnd cosF sinF piQ options =
      fallbackMarginDetection rnd cosF sinF piQ options) ∧
    (detectMarginEdge backendAvailable backendResponse rnd cosF sinF piQ options).success = true ∧
    (detectMarginEdge backendAvailable backendResponse rnd cosF sinF piQ options).source = "fallback" ∧
    (detectMarginEdge backendAvailable backendResponse rnd cosF sinF piQ options).count = dens ∧
    (detectMarginEdge backendAvailable backendResponse rnd cosF sinF piQ options).points.length = dens ∧
    (∀ i, i < dens →
      ∃ jx jy jz c : ℚ,
        |jx| ≤ 0.2 ∧ |jy| ≤ 0.2 ∧ |jz| ≤ 0.1 ∧ 0.7 ≤ c ∧ c ≤ 0.9 ∧
        (detectMarginEdge backendAvailable backendResponse rnd cosF sinF piQ options).points.getD
            i undefinedPoint =
          { id := some (i + 1)
            x := 0 + cosF (((i : ℚ) / (dens : ℚ)) * piQ * 2) * 3 + jx
            y := 0 + sinF (((i : ℚ) / (dens : ℚ)) * piQ * 2) * 3 + jy
            z := -1 + jz
            confidence := some c }) := by
  have hfb : detectMarginEdge backendAvailable backendResponse rnd cosF sinF piQ options =
      fallbackMarginDetection rnd cosF sinF piQ options := by
    rcases hfail with h | h
    · simp [detectMarginEdge, h]
    · subst h
      by_cases hb : backendAvailable = false <;> simp [detectMarginEdge, hb]
  have hdmatch : (match options.point_density with
      | none => 50
      | some 0 => 50
      | some k => k) = dens := by
    rw [hdens]
    match dens, hpos with
    | Nat.succ m, _ => rfl
  have hjit : ∀ k, |(rnd k - 0.5) * 0.2| ≤ 0.2 ∧ |(rnd k - 0.5) * 0.1| ≤ 0.1 := by
    intro k
    obtain ⟨h0, h1⟩ := hrnd k
    have habs : |rnd k - 0.5| ≤ 1/2 := by
      rw [abs_le]
      refine ⟨by linarith, by linarith⟩
    have ha2 : |(0.2 : ℚ)| = 0.2 := abs_of_nonneg (by norm_num)
    have ha1 : |(0.1 : ℚ)| = 0.1 := abs_of_nonneg (by norm_num)
    constructor
    · rw [abs_mul, ha2]
      nlinarith [habs, abs_nonneg (rnd k - 0.5)]
    · rw [abs_mul, ha1]
      nlinarith [habs, abs_nonneg (rnd k - 0.5)]
  refine ⟨hfb, ?_, ?_, ?_, ?_, ?_⟩
  · rw [hfb]
    rfl
  · rw [hfb]
    rfl
  · rw [hfb]
    simp [fallbackMarginDetection, hdmatch]
  · rw [hfb]
    simp [fallbackMarginDetection, hdmatch]
  · intro i hi
    refine ⟨(rnd (4 * i) - 0.5) * 0.2, (rnd (4 * i + 1) - 0.5) * 0.2,
      (rnd (4 * i + 2) - 0.5) * 0.1, 0.7 + rnd (4 * i + 3) * 0.2,
      (hjit (4 * i)).1, (hjit (4 * i + 1)).1, (hjit (4 * i + 2)).2, ?_, ?_, ?_⟩
    · have := (hrnd (4 * i + 3)).1
      nlinarith [this]
    · have := (hrnd (4 * i + 3)).2
      nlinarith [this]
    · rw [hfb]
      simp only [fallbackMarginDetection, hdmatch]
      rw [List.getD_eq_getElem]
      · simp
      · simpa using hi

/-- C6 witness: backend unavailable, density 2, `Math.random` returning a
constant 1/2, and identity stand-ins for the trigonometric functions. -/
theorem claim_C6_fallback_detection_witness :
    ((false = false ∨ (none : Option DetectResult) = none) ∧
      (⟨some 2⟩ : DetectionOptions).point_density = some 2 ∧ 0 < 2 ∧
      (∀ k : ℕ, 0 ≤ (fun (_ : ℕ) => (1/2 : ℚ)) k ∧ (fun (_ : ℕ) => (1/2 : ℚ)) k < 1)) ∧
    (detectMarginEdge false none (fun _ => 1/2) id id 3 ⟨some 2⟩).source = "fallback" ∧
    (detectMarginEdge false none (fun _ => 1/2) id id 3 ⟨some 2⟩).count = 2 := by
  refine ⟨⟨Or.inl rfl, rfl, by norm_num, fun k => ⟨by norm_num, by norm_num⟩⟩, ?_, ?_⟩
  · exact (claim_C6_fallback_detection false none (fun _ => 1/2) id id 3 ⟨some 2⟩ 2
      (Or.inl rfl) rfl (by norm_num) (fun k => ⟨by norm_num, by norm_num⟩)).2.2.1
  · exact (claim_C6_fallback_detection false none (fun _ => 1/2) id id 3 ⟨some 2⟩ 2
      (Or.inl rfl) rfl (by norm_num) (fun k => ⟨by norm_num, by norm_num⟩)).2.2.2.1

/-! ## Point-Cloud Interchange Codec (`dentalWorkflow.js`)

`fallbackExportMarginPts` writes the `.PTS` text; `importMarginPts` reads it.
Strings are `List Char`; the file content is its list of lines. -/

/-- The whitespace characters relevant to `trim()` / `split(/\s+/)` in this
format. -/
def isWs (c : Char) : Bool :=
  c == ' ' || c == '\t' || c == '\n' || c == '\r'

/-- Token scanner implementing `line.trim().split(/\s+/)`: maximal runs of
non-whitespace characters, in order.  (On a string that is blank after
`trim()` the JavaScript expression yields `[""]` where this yields `[]`;
such lines are filtered out before tokenization and in any case produce no
point, having fewer than 3 tokens.) -/
def splitWsAux : List Char → List Char → List (List Char)
  | [], acc => if acc = [] then [] else [acc.reverse]
  | c :: rest, acc =>
    if isWs c then
      if acc = [] then splitWsAux rest []
      else acc.reverse :: splitWsAux rest []
    else splitWsAux rest (c :: acc)

/-- `line.trim().split(/\s+/)` from `importMarginPts`. -/
def tokenize (line : List Char) : List (List Char) :=
  splitWsAux line []

/-- Numeric value of a decimal digit character. -/
def digToNat (c : Char) : ℕ :=
  c.toNat - 48

/-- Positional value of a most-significant-first digit string. -/
def digitsVal (ds : List Char) : ℕ :=
  Nat.ofDigits 10 (ds.map digToNat).reverse

/-- The exponent part of a JavaScript float literal (after the `e`/`E`):
optional sign and digits; an absent or malformed exponent contributes 0
(JavaScript's `parseFloat` then stops before the `e`). -/
def parseExp (cs : List Char) : ℤ :=
  let s : ℤ := if cs.head? = some '-' then -1 else 1
  let cs1 := if cs.head? = some '-' ∨ cs.head? = some '+' then cs.tail else cs
  let ds := cs1.takeWhile Char.isDigit
  if ds.length = 0 then 0 else s * (digitsVal ds : ℤ)

/-- JavaScript `parseFloat` on a whitespace-free token: parse the longest
prefix of the form `[+-] digits [. digits] [e [+-] digits]` (at least one
mantissa digit); `none` models `NaN`.  (`Infinity` and leading whitespace
never occur in the tokens this codec produces.) -/
def parseFloat (cs : List Char) : Option ℚ :=
  let sgn : ℚ := if cs.head? = some '-' then -1 else 1
  let cs1 := if cs.head? = some '-' ∨ cs.head? = some '+' then cs.tail else cs
  let intDs := cs1.takeWhile Char.isDigit
  let rest1 := cs1.dropWhile Char.isDigit
  let afterDot := if rest1.head? = some '.' then rest1.tail else []
  let fracDs := afterDot.takeWhile Char.isDigit
  let rest2 := if rest1.head? = some '.' then afterDot.dropWhile Char.isDigit else rest1
  if intDs.length = 0 ∧ fracDs.length = 0 then none
  else
    let e : ℤ := if rest2.head? = some 'e' ∨ rest2.head? = some 'E' then parseExp rest2.tail else 0
    some (sgn * ((digitsVal intDs : ℚ) + (digitsVal fracDs : ℚ) / (10 : ℚ) ^ fracDs.length) *
      (10 : ℚ) ^ e)

/-- Decimal digit characters of `n`, most significant first (`"0"` for 0). -/
def natChars (n : ℕ) : List Char :=
  if n = 0 then ['0'] else (Nat.digits 10 n).reverse.map Nat.digitChar

/-- Left-pad a digit string with `'0'` to six characters (the fractional
part of `toFixed(6)` always has exactly six digits). -/
def padSix (ds : List Char) : List Char :=
  List.replicate (6 - ds.length) '0' ++ ds

/-- JavaScript `Number.prototype.toFixed(6)` over exact rationals: round
`q * 10^6` to the nearest integer and print it with exactly six decimal
places. -/
def toFixed6 (q : ℚ) : List Char :=
  let m : ℤ := round (q * 1000000)
  (if m < 0 then ['-'] else []) ++
    natChars (m.natAbs / 1000000) ++ '.' :: padSix (natChars (m.natAbs % 1000000))

/-- Characters of a string literal. -/
def strChars (s : String) : List Char :=
  s.toList

/-- One point line of `fallbackExportMarginPts`:
`x.toFixed(6) + " " + y.toFixed(6) + " " + z.toFixed(6)`. -/
def pointLine (p : JsPoint) : List Char :=
  toFixed6 p.x ++ ' ' :: (toFixed6 p.y ++ ' ' :: toFixed6 p.z)

/-- `fallbackExportMarginPts()` from `dentalWorkflow.js`, as the list of
lines of the generated `.PTS` content: four `#` header lines (case number,
tooth number, timestamp, point count), a blank line, one line per point,
and the empty line left by the final newline. -/
def fallbackExportMarginPts (caseNum toothNum dateStr : List Char)
    (points : List JsPoint) : List (List Char) :=
  ('#' :: strChars " Margin Points for Case " ++ caseNum) ::
  ('#' :: strChars " Tooth: " ++ toothNum) ::
  ('#' :: strChars " Generated: " ++ dateStr) ::
  ('#' :: strChars " Point Count: " ++ natChars points.length) ::
  [] ::
  (points.map pointLine ++ [[]])

/-- A point produced by `importMarginPts`: `parseFloat` results (possibly
`NaN`, i.e. `none`) for the first three tokens and confidence 1.  The
source stores no normal — tokens beyond the third are ignored. -/
structure IPoint where
  id : ℕ
  x : Option ℚ
  y : Option ℚ
  z : Option ℚ
  confidence : ℚ
deriving DecidableEq

/-- The line filter of `importMarginPts`:
`line.trim() && !line.startsWith('#')` — keep a line iff it is not blank
after trimming and its first character is not `'#'`. -/
def keepLine (line : List Char) : Bool :=
  !line.all isWs && !(line.head? == some '#')

/-- The body of `importMarginPts`'s `forEach` over the kept lines: a line
with at least 3 whitespace-separated tokens yields a point whose `x`, `y`,
`z` are `parseFloat` of the first three tokens and whose confidence is 1;
`id` is one plus the line's index among the kept lines. -/
def lineToPoint (indexLine : ℕ × List Char) : Option IPoint :=
  let coords := tokenize indexLine.2
  if 3 ≤ coords.length then
    some { id := indexLine.1 + 1
           x := parseFloat (coords.getD 0 [])
           y := parseFloat (coords.getD 1 [])
           z := parseFloat (coords.getD 2 [])
           confidence := 1 }
  else none

/-- `importMarginPts(file)` from `dentalWorkflow.js` on the file's lines:
filter out blank and `#` lines, build one point per remaining line with at
least 3 tokens, and report an error (`none`, the `"No valid points found"`
alert) when no point was produced. -/
def importMarginPts (contentLines : List (List Char)) : Option (List IPoint) :=
  let lines := contentLines.filter keepLine
  let importedPoints := lines.enum.filterMap lineToPoint
  if 0 < importedPoints.length then some importedPoints else none

/-- C3 counterexample to the original claim: on a file consisting of the
single line `"x y z"`, whose three tokens are all malformed, the claimed
behavior is to skip that line and report the zero-valid-point import as an
error; `importMarginPts` instead pushes a point with `NaN` (`none`)
coordinates for that line and reports success. -/
theorem claim_C3_pts_import_counterexample :
    importMarginPts [['x', ' ', 'y', ' ', 'z']] =
      some [{ id := 1, x := none, y := none, z := none, confidence := 1 }] ∧
    importMarginPts [['x', ' ', 'y', ' ', 'z']] ≠ none := by
  constructor
  · decide
  · decide

/-- C3 (amended): the parser discards lines blank after trimming and lines
starting with `'#'`; every remaining line with at least 3 whitespace-separated
tokens yields a point whose `x`, `y`, `z` are `parseFloat` of its first three
tokens — `none` (`NaN`) when a token is malformed, the line is *not*
skipped — with confidence 1, and tokens beyond the third ignored (no normal
is stored); a remaining line with fewer than 3 tokens yields no point; and
any run producing zero points is reported as an error, never as a silent
empty success. -/
theorem claim_C3_pts_import_amended :
    (∀ line : List Char,
      keepLine line = false ↔ (line.all isWs = true ∨ line.head? = some '#')) ∧
    (∀ (i : ℕ) (line : List Char), 3 ≤ (tokenize line).length →
      lineToPoint (i, line) =
        some { id := i + 1
               x := parseFloat ((tokenize line).getD 0 [])
               y := parseFloat ((tokenize line).getD 1 [])
               z := parseFloat ((tokenize line).getD 2 [])
               confidence := 1 }) ∧
    (∀ (i : ℕ) (line : List Char), (tokenize line).length < 3 →
      lineToPoint (i, line) = none) ∧
    (∀ contentLines : List (List Char),
      importMarginPts contentLines =
        (if 0 < ((contentLines.filter keepLine).enum.filterMap lineToPoint).length
         then some ((contentLines.filter keepLine).enum.filterMap lineToPoint)
         else none) ∧
      (importMarginPts contentLines = none ↔
        (contentLines.filter keepLine).enum.filterMap lineToPoint = [])) := by
  refine ⟨?_, ?_, ?_, ?_⟩
  · intro line
    cases hall : line.all isWs <;> cases hh : line.head? == some '#' <;>
      simp_all [keepLine, beq_iff_eq]
  · intro i line h
    simp [lineToPoint, if_pos h]
  · intro i line h
    simp [lineToPoint, if_neg (by omega : ¬ 3 ≤ (tokenize line).length)]
  · intro contentLines
    refine ⟨rfl, ?_⟩
    by_cases h : 0 < ((contentLines.filter keepLine).enum.filterMap lineToPoint).length
    · have h2 : (contentLines.filter keepLine).enum.filterMap lineToPoint ≠ [] := by
        intro he
        rw [he] at h
        simp at h
      simp [importMarginPts, if_pos h, h2]
    · have h2 : (contentLines.filter keepLine).enum.filterMap lineToPoint = [] := by
        have := Nat.eq_zero_of_not_pos h
        exact List.length_eq_zero.mp this
      simp [importMarginPts, if_neg h, h2]

/-- C3 amended-claim witness: a kept 4-token line yields a point from its
first three tokens (the fourth is ignored), via the amended theorem. -/
theorem claim_C3_pts_import_amended_witness :
    3 ≤ (tokenize ['1', ' ', '2', ' ', '3', ' ', '9']).length ∧
    lineToPoint (0, ['1', ' ', '2', ' ', '3', ' ', '9']) =
      some { id := 0 + 1
             x := parseFloat ((tokenize ['1', ' ', '2', ' ', '3', ' ', '9']).getD 0 [])
             y := parseFloat ((tokenize ['1', ' ', '2', ' ', '3', ' ', '9']).getD 1 [])
             z := parseFloat ((tokenize ['1', ' ', '2', ' ', '3', ' ', '9']).getD 2 [])
             confidence := 1 } :=
  ⟨by decide, claim_C3_pts_import_amended.2.1 0 ['1', ' ', '2', ' ', '3', ' ', '9'] (by decide)⟩

/-! ### Round-trip support lemmas (C9) -/

lemma digToNat_digitChar {d : ℕ} (h : d < 10) : digToNat (Nat.digitChar d) = d := by
  interval_cases d <;> decide

lemma isDigit_digitChar {d : ℕ} (h : d < 10) : (Nat.digitChar d).isDigit = true := by
  interval_cases d <;> decide

lemma isDigit_ne_special {c : Char} (h : c.isDigit = true) :
    c ≠ '-' ∧ c ≠ '+' ∧ c ≠ '.' ∧ c ≠ '#' ∧ isWs c = false := by
  have h1 : c ≠ '-' := by
    intro hc
    subst hc
    exact absurd h (by decide)
  have h2 : c ≠ '+' := by
    intro hc
    subst hc
    exact absurd h (by decide)
  have h3 : c ≠ '.' := by
    intro hc
    subst hc
    exact absurd h (by decide)
  have h4 : c ≠ '#' := by
    intro hc
    subst hc
    exact absurd h (by decide)
  have h5 : c ≠ ' ' := by
    intro hc
    subst hc
    exact absurd h (by decide)
  have h6 : c ≠ '\t' := by
    intro hc
    subst hc
    exact absurd h (by decide)
  have h7 : c ≠ '\n' := by
    intro hc
    subst hc
    exact absurd h (by decide)
  have h8 : c ≠ '\r' := by
    intro hc
    subst hc
    exact absurd h (by decide)
  refine ⟨h1, h2, h3, h4, ?_⟩
  simp [isWs, h5, h6, h7, h8]

lemma mem_natChars {c : Char} {n : ℕ} (h : c ∈ natChars n) :
    ∃ d, d < 10 ∧ c = Nat.digitChar d := by
  by_cases h0 : n = 0
  · subst h0
    have he : natChars 0 = ['0'] := rfl
    rw [he, List.mem_singleton] at h
    exact ⟨0, by norm_num, h⟩
  · simp only [natChars, if_neg h0, List.mem_map, List.mem_reverse] at h
    obtain ⟨d, hd, hc⟩ := h
    exact ⟨d, Nat.digits_lt_base (by norm_num) hd, hc.symm⟩

lemma isDigit_of_mem_natChars {c : Char} {n : ℕ} (h : c ∈ natChars n) :
    c.isDigit = true := by
  obtain ⟨d, hd, rfl⟩ := mem_natChars h
  exact isDigit_digitChar hd

lemma natChars_ne_nil (n : ℕ) : natChars n ≠ [] := by
  by_cases h0 : n = 0
  · subst h0
    simp [natChars]
  · simp only [natChars, if_neg h0]
    simp [Nat.digits_ne_nil_iff_ne_zero, h0]

lemma isDigit_of_mem_padSix {c : Char} {ds : List Char}
    (hds : ∀ a ∈ ds, a.isDigit = true) (h : c ∈ padSix ds) : c.isDigit = true := by
  simp only [padSix, List.mem_append, List.mem_replicate] at h
  rcases h with ⟨-, rfl⟩ | h
  · decide
  · exact hds c h

lemma takeWhile_all {p : Char → Bool} {A : List Char} (hA : ∀ a ∈ A, p a = true) :
    A.takeWhile p = A ∧ A.dropWhile p = [] := by
  induction A with
  | nil => simp
  | cons a A ih =>
    have hpa : p a = true := hA a (List.mem_cons_self a A)
    have ih2 := ih (fun x hx => hA x (List.mem_cons_of_mem a hx))
    simp [List.takeWhile_cons, List.dropWhile_cons, hpa, ih2.1, ih2.2]

lemma takeWhile_append_stop {p : Char → Bool} {A B : List Char} {c : Char}
    (hA : ∀ a ∈ A, p a = true) (hc : p c = false) :
    (A ++ c :: B).takeWhile p = A ∧ (A ++ c :: B).dropWhile p = c :: B := by
  induction A with
  | nil => simp [List.takeWhile_cons, List.dropWhile_cons, hc]
  | cons a A ih =>
    have hpa : p a = true := hA a (List.mem_cons_self a A)
    have ih2 := ih (fun x hx => hA x (List.mem_cons_of_mem a hx))
    simp [List.takeWhile_cons, List.dropWhile_cons, hpa, ih2.1, ih2.2]

lemma ofDigits_replicate_zero (k : ℕ) : Nat.ofDigits 10 (List.replicate k 0) = 0 := by
  induction k with
  | zero => rfl
  | succ k ih => simp [List.replicate_succ, Nat.ofDigits_cons, ih]

lemma digitsVal_natChars (n : ℕ) : digitsVal (natChars n) = n := by
  by_cases h0 : n = 0
  · subst h0
    decide
  · simp only [digitsVal, natChars, if_neg h0, List.map_map]
    have hmap : (Nat.digits 10 n).reverse.map (digToNat ∘ Nat.digitChar) =
        (Nat.digits 10 n).reverse := by
      conv_rhs => rw [← List.map_id ((Nat.digits 10 n).reverse)]
      apply List.map_congr_left
      intro d hd
      exact digToNat_digitChar (Nat.digits_lt_base (by norm_num) (List.mem_reverse.mp hd))
    rw [hmap, List.reverse_reverse, Nat.ofDigits_digits]

lemma digitsVal_padSix {ds : List Char} : digitsVal (padSix ds) = digitsVal ds := by
  simp only [digitsVal, padSix, List.map_append, List.map_replicate]
  have hz : digToNat '0' = 0 := rfl
  rw [hz, List.reverse_append, List.reverse_replicate, Nat.ofDigits_append,
    ofDigits_replicate_zero]
  simp

lemma natChars_length_le_six {n : ℕ} (h : n < 1000000) : (natChars n).length ≤ 6 := by
  by_cases h0 : n = 0
  · subst h0
    simp [natChars]
  · simp only [natChars, if_neg h0, List.length_map, List.length_reverse]
    have h10 : (1000000 : ℕ) = 10 ^ 6 := by norm_num
    rw [h10] at h
    have hlog : Nat.log 10 n < 6 := Nat.log_lt_of_lt_pow h0 h
    rw [Nat.digits_len 10 n (by norm_num) h0]
    omega

lemma padSix_length {ds : List Char} (h : ds.length ≤ 6) : (padSix ds).length = 6 := by
  simp only [padSix, List.length_append, List.length_replicate]
  omega

lemma parseFloat_digits_dot {A B : List Char} (hA : ∀ c ∈ A, c.isDigit = true)
    (hB : ∀ c ∈ B, c.isDigit = true) (hAne : A ≠ []) :
    parseFloat (A ++ '.' :: B) =
      some ((digitsVal A : ℚ) + (digitsVal B : ℚ) / (10 : ℚ) ^ B.length) := by
  obtain ⟨a, A', rfl⟩ : ∃ a A', A = a :: A' := by
    cases A with
    | nil => exact absurd rfl hAne
    | cons a A' => exact ⟨a, A', rfl⟩
  have ha : a.isDigit = true := hA a (List.mem_cons_self a A')
  have hd1 : a ≠ '-' := (isDigit_ne_special ha).1
  have hd2 : a ≠ '+' := (isDigit_ne_special ha).2.1
  have htw := takeWhile_append_stop (B := B) hA (by decide : Char.isDigit '.' = false)
  have htwB := takeWhile_all hB
  simp only [List.cons_append] at htw
  simp only [parseFloat, List.cons_append, List.head?_cons, Option.some.injEq, hd1, hd2,
    if_false, or_self, htw.1, htw.2, htwB.1, htwB.2, List.tail_cons, List.length_cons,
    List.head?_nil, and_false, false_and, if_true, zpow_zero, mul_one, one_mul]
  simp

lemma parseFloat_neg_digits_dot {A B : List Char} (hA : ∀ c ∈ A, c.isDigit = true)
    (hB : ∀ c ∈ B, c.isDigit = true) (hAne : A ≠ []) :
    parseFloat ('-' :: (A ++ '.' :: B)) =
      some (-((digitsVal A : ℚ) + (digitsVal B : ℚ) / (10 : ℚ) ^ B.length)) := by
  have hAne2 : A.length ≠ 0 := fun h => hAne (List.length_eq_zero.mp h)
  have htw := takeWhile_append_stop (B := B) hA (by decide : Char.isDigit '.' = false)
  have htwB := takeWhile_all hB
  simp [parseFloat, htw.1, htw.2, htwB.1, htwB.2, hAne2]

lemma parseFloat_toFixed6 (q : ℚ) :
    parseFloat (toFixed6 q) = some (((round (q * 1000000) : ℤ) : ℚ) / 1000000) := by
  set m := round (q * 1000000) with hmdef
  have hfplt : m.natAbs % 1000000 < 1000000 := Nat.mod_lt _ (by norm_num)
  have hA : ∀ c ∈ natChars (m.natAbs / 1000000), c.isDigit = true :=
    fun c hc => isDigit_of_mem_natChars hc
  have hB : ∀ c ∈ padSix (natChars (m.natAbs % 1000000)), c.isDigit = true :=
    fun c hc => isDigit_of_mem_padSix (fun a ha => isDigit_of_mem_natChars ha) hc
  have hlen : (padSix (natChars (m.natAbs % 1000000))).length = 6 :=
    padSix_length (natChars_length_le_six hfplt)
  have hvalA : digitsVal (natChars (m.natAbs / 1000000)) = m.natAbs / 1000000 :=
    digitsVal_natChars _
  have hvalB : digitsVal (padSix (natChars (m.natAbs % 1000000))) = m.natAbs % 1000000 := by
    rw [digitsVal_padSix, digitsVal_natChars]
  have hsum : ((m.natAbs / 1000000 : ℕ) : ℚ) + ((m.natAbs % 1000000 : ℕ) : ℚ) / (10 : ℚ) ^ 6 =
      (m.natAbs : ℚ) / 1000000 := by
    have hdm : (1000000 : ℕ) * (m.natAbs / 1000000) + m.natAbs % 1000000 = m.natAbs :=
      Nat.div_add_mod _ _
    have hcast : 1000000 * ((m.natAbs / 1000000 : ℕ) : ℚ) + ((m.natAbs % 1000000 : ℕ) : ℚ) =
        (m.natAbs : ℚ) := by
      exact_mod_cast congrArg (fun k : ℕ => (k : ℚ)) hdm
    have h6 : ((10 : ℚ) ^ 6) = 1000000 := by norm_num
    rw [h6]
    field_simp
    linarith [hcast]
  by_cases hm : m < 0
  · have ht : toFixed6 q =
        '-' :: (natChars (m.natAbs / 1000000) ++
          '.' :: padSix (natChars (m.natAbs % 1000000))) := by
      simp only [toFixed6, ← hmdef]
      rw [if_pos hm]
      rfl
    rw [ht, parseFloat_neg_digits_dot hA hB (natChars_ne_nil _), hlen]
    have habs : (m.natAbs : ℚ) = -(m : ℚ) := by
      rw [Int.cast_natAbs, abs_of_neg hm]
      push_cast
      ring
    rw [hvalA, hvalB, hsum, habs]
    congr 1
    ring
  · have ht : toFixed6 q =
        natChars (m.natAbs / 1000000) ++
          '.' :: padSix (natChars (m.natAbs % 1000000)) := by
      simp only [toFixed6, ← hmdef]
      rw [if_neg hm]
      rfl
    rw [ht, parseFloat_digits_dot hA hB (natChars_ne_nil _), hlen]
    have habs : (m.natAbs : ℚ) = (m : ℚ) := by
      rw [Int.cast_natAbs, abs_of_nonneg (Int.not_lt.mp hm)]
    rw [hvalA, hvalB, hsum, habs]

lemma round_div_million_close (q : ℚ) :
    |((round (q * 1000000) : ℤ) : ℚ) / 1000000 - q| ≤ 1/1000000 := by
  have h : |((round (q * 1000000) : ℤ) : ℚ) - q * 1000000| ≤ 1/2 := by
    rw [abs_sub_comm]
    exact abs_sub_round (q * 1000000)
  have h2 : ((round (q * 1000000) : ℤ) : ℚ) / 1000000 - q =
      (((round (q * 1000000) : ℤ) : ℚ) - q * 1000000) / 1000000 := by
    ring
  rw [h2, abs_div, abs_of_pos (by norm_num : (0 : ℚ) < 1000000)]
  have h3 := (div_le_div_right (show (0 : ℚ) < 1000000 by norm_num)).mpr h
  calc |((round (q * 1000000) : ℤ) : ℚ) - q * 1000000| / 1000000
      ≤ (1/2) / 1000000 := h3
    _ ≤ 1/1000000 := by norm_num

lemma toFixed6_char_props {c : Char} {q : ℚ} (h : c ∈ toFixed6 q) :
    isWs c = false ∧ c ≠ '#' := by
  simp only [toFixed6, List.mem_append, List.mem_cons] at h
  rcases h with (h | h) | h | h
  · by_cases hm : round (q * 1000000) < 0
    · rw [if_pos hm] at h
      simp only [List.mem_singleton] at h
      subst h
      exact ⟨by decide, by decide⟩
    · rw [if_neg hm] at h
      simp at h
  · have hd := isDigit_of_mem_natChars h
    exact ⟨(isDigit_ne_special hd).2.2.2.2, (isDigit_ne_special hd).2.2.2.1⟩
  · subst h
    exact ⟨by decide, by decide⟩
  · have hd := isDigit_of_mem_padSix (fun a ha => isDigit_of_mem_natChars ha) h
    exact ⟨(isDigit_ne_special hd).2.2.2.2, (isDigit_ne_special hd).2.2.2.1⟩

lemma toFixed6_ne_nil (q : ℚ) : toFixed6 q ≠ [] := by
  intro h
  simp only [toFixed6, List.append_eq_nil] at h
  exact absurd h.2 (List.cons_ne_nil _ _)

lemma keepLine_pointLine (p : JsPoint) : keepLine (pointLine p) = true := by
  obtain ⟨a, A', hA⟩ : ∃ a A', toFixed6 p.x = a :: A' := by
    cases he : toFixed6 p.x with
    | nil => exact absurd he (toFixed6_ne_nil p.x)
    | cons a A' => exact ⟨a, A', rfl⟩
  have hmem : a ∈ toFixed6 p.x := by
    rw [hA]
    exact List.mem_cons_self a A'
  have hprops := toFixed6_char_props hmem
  simp only [keepLine, pointLine, hA, List.cons_append, List.head?_cons, List.all_cons,
    hprops.1, Bool.false_and, Bool.not_false, Bool.true_and]
  simp [hprops.2]

lemma filter_export_lines (caseNum toothNum dateStr : List Char) (points : List JsPoint) :
    (fallbackExportMarginPts caseNum toothNum dateStr points).filter keepLine =
      points.map pointLine := by
  have hhash : ∀ rest : List Char, keepLine ('#' :: rest) = false := by
    intro rest
    simp [keepLine]
  have hempty : keepLine ([] : List Char) = false := by decide
  have hself : (points.map pointLine).filter keepLine = points.map pointLine := by
    apply List.filter_eq_self.mpr
    intro l hl
    obtain ⟨p, _, rfl⟩ := List.mem_map.mp hl
    exact keepLine_pointLine p
  simp only [fallbackExportMarginPts, List.cons_append, List.filter_cons, hhash, hempty,
    List.filter_append, hself, Bool.false_eq_true, if_false]
  simp [hempty]

lemma filterMap_eq_map_of_forall_some {α β : Type} {l : List α} {g : α → Option β}
    {g2 : α → β} (h : ∀ x ∈ l, g x = some (g2 x)) : l.filterMap g = l.map g2 := by
  induction l with
  | nil => rfl
  | cons a l ih =>
    rw [List.map_cons, List.filterMap_cons_some (h a (List.mem_cons_self a l)),
      ih (fun x hx => h x (List.mem_cons_of_mem a hx))]

lemma splitWsAux_append_nonws {A : List Char} :
    ∀ {l acc : List Char}, (∀ c ∈ A, isWs c = false) →
      splitWsAux (A ++ l) acc = splitWsAux l (A.reverse ++ acc) := by
  induction A with
  | nil => intro l acc _; simp
  | cons a A ih =>
    intro l acc hA
    have ha : isWs a = false := hA a (List.mem_cons_self a A)
    have ih2 := @ih l (a :: acc) (fun c hc => hA c (List.mem_cons_of_mem a hc))
    simp only [List.cons_append, splitWsAux, ha, Bool.false_eq_true, if_false, ih2,
      List.reverse_cons, List.append_assoc, List.singleton_append, List.nil_append]
    exact ih2

lemma splitWsAux_space {l acc : List Char} (h : ¬ acc = []) :
    splitWsAux (' ' :: l) acc = acc.reverse :: splitWsAux l [] := by
  have hws : isWs ' ' = true := by decide
  simp [splitWsAux, hws, h]

lemma splitWsAux_last {A acc : List Char} (hA : ∀ c ∈ A, isWs c = false)
    (h : ¬ (A.reverse ++ acc) = []) :
    splitWsAux A acc = [(A.reverse ++ acc).reverse] := by
  have h2 : splitWsAux (A ++ []) acc = splitWsAux [] (A.reverse ++ acc) :=
    splitWsAux_append_nonws hA
  rw [List.append_nil] at h2
  rw [h2]
  simp [splitWsAux, h]

lemma tokenize_three {X Y Z : List Char}
    (hX : ∀ c ∈ X, isWs c = false) (hY : ∀ c ∈ Y, isWs c = false)
    (hZ : ∀ c ∈ Z, isWs c = false)
    (hXne : X ≠ []) (hYne : Y ≠ []) (hZne : Z ≠ []) :
    tokenize (X ++ ' ' :: (Y ++ ' ' :: Z)) = [X, Y, Z] := by
  have hXr : ¬ (X.reverse ++ ([] : List Char)) = [] := by
    simp [hXne]
  have hYr : ¬ (Y.reverse ++ ([] : List Char)) = [] := by
    simp [hYne]
  have hZr : ¬ (Z.reverse ++ ([] : List Char)) = [] := by
    simp [hZne]
  unfold tokenize
  rw [splitWsAux_append_nonws hX, splitWsAux_space (by simpa using hXr),
    splitWsAux_append_nonws hY, splitWsAux_space (by simpa using hYr),
    splitWsAux_last hZ hZr]
  simp

lemma toFixed6_not_ws {c : Char} {q : ℚ} (h : c ∈ toFixed6 q) : isWs c = false :=
  (toFixed6_char_props h).1

lemma tokenize_pointLine (p : JsPoint) :
    tokenize (pointLine p) = [toFixed6 p.x, toFixed6 p.y, toFixed6 p.z] := by
  exact tokenize_three (fun c hc => toFixed6_not_ws hc) (fun c hc => toFixed6_not_ws hc)
    (fun c hc => toFixed6_not_ws hc) (toFixed6_ne_nil _) (toFixed6_ne_nil _) (toFixed6_ne_nil _)

lemma lineToPoint_pointLine (i : ℕ) (p : JsPoint) :
    lineToPoint (i, pointLine p) =
      some { id := i + 1
             x := some (((round (p.x * 1000000) : ℤ) : ℚ) / 1000000)
             y := some (((round (p.y * 1000000) : ℤ) : ℚ) / 1000000)
             z := some (((round (p.z * 1000000) : ℤ) : ℚ) / 1000000)
             confidence := 1 } := by
  simp [lineToPoint, tokenize_pointLine, parseFloat_toFixed6]

/-- C9: parsing the writer's output succeeds for every nonempty point list
and reproduces every coordinate to within `1e-6` of the original — the
round-trip is bounded by the 6-decimal fixed formatting. -/
theorem claim_C9_pts_round_trip (caseNum toothNum dateStr : List Char)
    (points : List JsPoint) (hne : points ≠ []) :
    ∃ parsed : List IPoint,
      importMarginPts (fallbackExportMarginPts caseNum toothNum dateStr points) =
        some parsed ∧
      parsed.length = points.length ∧
      (∀ i (hp : i < parsed.length) (hq : i < points.length),
        ∃ qx qy qz : ℚ,
          (parsed.get ⟨i, hp⟩).x = some qx ∧ (parsed.get ⟨i, hp⟩).y = some qy ∧
          (parsed.get ⟨i, hp⟩).z = some qz ∧
          |qx - (points.get ⟨i, hq⟩).x| ≤ 1/1000000 ∧
          |qy - (points.get ⟨i, hq⟩).y| ≤ 1/1000000 ∧
          |qz - (points.get ⟨i, hq⟩).z| ≤ 1/1000000) := by
  have hpts : ((fallbackExportMarginPts caseNum toothNum dateStr points).filter
        keepLine).enum.filterMap lineToPoint =
      points.enum.map (fun ip : ℕ × JsPoint =>
        ({ id := ip.1 + 1
           x := some (((round (ip.2.x * 1000000) : ℤ) : ℚ) / 1000000)
           y := some (((round (ip.2.y * 1000000) : ℤ) : ℚ) / 1000000)
           z := some (((round (ip.2.z * 1000000) : ℤ) : ℚ) / 1000000)
           confidence := 1 } : IPoint)) := by
    rw [filter_export_lines, List.enum_map, List.filterMap_map]
    apply filterMap_eq_map_of_forall_some
    intro ip _
    exact lineToPoint_pointLine ip.1 ip.2
  have hlen2 : (points.enum.map (fun ip : ℕ × JsPoint =>
      ({ id := ip.1 + 1
         x := some (((round (ip.2.x * 1000000) : ℤ) : ℚ) / 1000000)
         y := some (((round (ip.2.y * 1000000) : ℤ) : ℚ) / 1000000)
         z := some (((round (ip.2.z * 1000000) : ℤ) : ℚ) / 1000000)
         confidence := 1 } : IPoint))).length = points.length := by
    simp
  refine ⟨_, ?_, hlen2, ?_⟩
  · simp only [importMarginPts, hpts]
    rw [if_pos]
    rw [hlen2]
    exact List.length_pos.mpr hne
  · intro i hp hq
    refine ⟨((round ((points.get ⟨i, hq⟩).x * 1000000) : ℤ) : ℚ) / 1000000,
      ((round ((points.get ⟨i, hq⟩).y * 1000000) : ℤ) : ℚ) / 1000000,
      ((round ((points.get ⟨i, hq⟩).z * 1000000) : ℤ) : ℚ) / 1000000,
      ?_, ?_, ?_, round_div_million_close _, round_div_million_close _,
      round_div_million_close _⟩ <;>
    · rw [List.get_eq_getElem, List.getElem_map]
      simp [List.getElem_enum]

/-- C9 witness: the round-trip theorem applied to a concrete one-point list
(with empty header fields), yielding a successful parse of one point. -/
theorem claim_C9_pts_round_trip_witness :
    ([(⟨some 1, 1/3, -2, 0, some 1⟩ : JsPoint)] : List JsPoint) ≠ [] ∧
    ∃ parsed : List IPoint,
      importMarginPts (fallbackExportMarginPts [] [] []
          [(⟨some 1, 1/3, -2, 0, some 1⟩ : JsPoint)]) = some parsed ∧
      parsed.length = 1 := by
  refine ⟨by simp, ?_⟩
  obtain ⟨parsed, h1, h2, -⟩ :=
    claim_C9_pts_round_trip [] [] [] [(⟨some 1, 1/3, -2, 0, some 1⟩ : JsPoint)] (by simp)
  exact ⟨parsed, h1, by simpa using h2⟩

end DentalCad
